import Mathlib

/-!
Shallow embedding of the gradient-based planner core of `pyRDDLGym_jax`
(`pyRDDLGym_jax/core/planner.py`) and proofs about its specification.

Modelling conventions:
* Machine floats are modelled by exact rationals `ℚ`.  The transcendental
  routines `jnp.log` and `jnp.exp` that the source calls are not rational
  functions, so every definition that calls them takes the routine as an
  explicit argument `flog : ℚ → ℚ` / `fexp : ℚ → ℚ` (mirroring the fact
  that the source calls an external numeric kernel).  Theorems assume only
  the properties of these routines they need, and witnesses instantiate
  them with concrete computable functions satisfying those properties.
* A `jax` array of boolean-action parameters at one time step is modelled
  as a `List ℚ` (the flattened entries); `jax.vmap` over the horizon axis
  becomes `List.map` over a list of per-step slices.
* Values that can be NaN or infinite (losses) are modelled by `FVal`.
-/

namespace Planner

/-- `jnp.clip(x, lo, hi) = min(max(x, lo), hi)`. -/
def clip (x lo hi : ℚ) : ℚ := min (max x lo) hi

/-- `jax.nn.sigmoid(x) = 1 / (1 + exp(-x))`, with the exponential routine
passed explicitly. -/
def sigmoid (fexp : ℚ → ℚ) (x : ℚ) : ℚ := 1 / (1 + fexp (-x))

/-- The value range of an action fluent (`rddl.variable_ranges[var]`). -/
inductive RangeTag
  | bool
  | int
  | real
deriving DecidableEq, Repr

/-- One action fluent at one time step: its name, range tag, no-op value
(for boolean fluents, `noop[var]`), declared box bounds (for non-boolean
fluents, `bounds[var]`) and the flattened list of trainable parameter
entries at this step. -/
structure ActionVar where
  name : String
  range : RangeTag
  noop : Bool
  lower : ℚ
  upper : ℚ
  param : List ℚ
deriving DecidableEq, Repr

/-- Configuration of `JaxStraightLinePlan` together with the RDDL
concurrency bound `rddl.max_allowed_actions`. -/
structure PlanConfig where
  wrapSigmoid : Bool
  minActionProb : ℚ
  wrapNonBool : Bool
  wrapSoftmax : Bool
  useNewProjection : Bool
  maxConstraintIter : ℕ
  allowedActions : ℕ
deriving DecidableEq, Repr

/-- `bool_threshold = 0.0 if wrap_sigmoid else 0.5`. -/
def boolThreshold (cfg : PlanConfig) : ℚ := if cfg.wrapSigmoid then 0 else 1/2

/-- `_jax_bool_param_to_action`: `sigmoid(weight * param)` when
`wrap_sigmoid`, else the raw parameter.  `w = hyperparams[var]`. -/
def bool_param_to_action (cfg : PlanConfig) (fexp : ℚ → ℚ) (w p : ℚ) : ℚ :=
  if cfg.wrapSigmoid then sigmoid fexp (w * p) else p

/-- `_jax_bool_action_to_param`: `(-1/weight) * log(1/action - 1)` when
`wrap_sigmoid`, else the action itself. -/
def bool_action_to_param (cfg : PlanConfig) (flog : ℚ → ℚ) (w a : ℚ) : ℚ :=
  if cfg.wrapSigmoid then (-1 / w) * flog (1 / a - 1) else a

/-- `_jax_project_bool_to_box`: clip a boolean parameter to the parameter
values of the safe probability range
`[action_to_param(min_action), action_to_param(1 - min_action)]`. -/
def project_bool_to_box (cfg : PlanConfig) (flog : ℚ → ℚ) (w p : ℚ) : ℚ :=
  clip p (bool_action_to_param cfg flog w cfg.minActionProb)
         (bool_action_to_param cfg flog w (1 - cfg.minActionProb))

/-- The per-variable body of `_jax_wrapped_slp_project_to_box`: boolean
parameters are clipped to the safe probability box, non-boolean
parameters are left alone when `wrap_non_bool` and clipped to their
declared bounds otherwise. -/
def box_var (cfg : PlanConfig) (flog : ℚ → ℚ) (hyper : String → ℚ)
    (v : ActionVar) : ActionVar :=
  if v.range = RangeTag.bool then
    { v with param := v.param.map (project_bool_to_box cfg flog (hyper v.name)) }
  else if cfg.wrapNonBool then v
  else { v with param := v.param.map (fun p => clip p v.lower v.upper) }

/-- `_jax_wrapped_slp_project_to_box` restricted to one time-step slice of
the parameter dictionary (the softmax-stacked `bool__` entry, which only
exists when `wrap_softmax` is set, is not modelled).  Always reports
`True`. -/
def slp_project_to_box (cfg : PlanConfig) (flog : ℚ → ℚ) (hyper : String → ℚ)
    (vars : List ActionVar) : List ActionVar × Bool :=
  (vars.map (box_var cfg flog hyper), true)

/-- Reflection applied when building the scores of the sorting projection:
`param_flat = (-param_flat) if wrap_sigmoid else 1.0 - param_flat`,
applied only when `noop[var]` holds. -/
def reflectScore (cfg : PlanConfig) (noop : Bool) (p : ℚ) : ℚ :=
  if noop then (if cfg.wrapSigmoid then -p else 1 - p) else p

/-- The concatenated flattened boolean pre-activation scores of
`_jax_wrapped_sorting_project` (each reflected around its no-op
polarity). -/
def sortingScores (cfg : PlanConfig) (vars : List ActionVar) : List ℚ :=
  (vars.filter (fun v => v.range = RangeTag.bool)).flatMap
    (fun v => v.param.map (reflectScore cfg v.noop))

/-- `jnp.sort(scores)[::-1]`: sort ascending, then reverse. -/
def sortDescending (l : List ℚ) : List ℚ :=
  (l.mergeSort (fun a b => decide (a ≤ b))).reverse

/-- The shift performed by `_jax_wrapped_sorting_project` on one
variable: move every boolean parameter by the surplus (up for no-op
`True`, down otherwise) and re-clip it to the safe box; non-boolean
parameters are untouched. -/
def shift_var (cfg : PlanConfig) (flog : ℚ → ℚ) (hyper : String → ℚ)
    (surplus : ℚ) (v : ActionVar) : ActionVar :=
  if v.range = RangeTag.bool then
    { v with param := v.param.map (fun p =>
        project_bool_to_box cfg flog (hyper v.name)
          (p + (if v.noop then surplus else -surplus))) }
  else v

/-- The surplus computed by `_jax_wrapped_sorting_project`: the
non-negative amount by which the `(K+1)`-th largest reflected score
exceeds the decision boundary. -/
def sortingSurplus (cfg : PlanConfig) (vars : List ActionVar) : ℚ :=
  max ((sortDescending (sortingScores cfg vars)).getD cfg.allowedActions 0
        - boolThreshold cfg) 0

/-- `_jax_wrapped_sorting_project` on one time-step slice: compute the
`(K+1)`-th largest reflected score, subtract (or add, for no-op `True`)
the non-negative surplus above the decision boundary from every boolean
parameter, re-clip to the safe box, and report `True`. -/
def sorting_project (cfg : PlanConfig) (flog : ℚ → ℚ) (hyper : String → ℚ)
    (vars : List ActionVar) : List ActionVar × Bool :=
  (vars.map (shift_var cfg flog hyper (sortingSurplus cfg vars)), true)

/-- `_jax_wrapped_slp_project_to_max_constraint` for the sorting strategy:
first project everything to the box, then apply the per-step sorting
projection independently to every time step (`jax.vmap` over the horizon
axis).  Returns the projected steps and the per-step convergence flags. -/
def slp_project_to_max_constraint_sorting (cfg : PlanConfig) (flog : ℚ → ℚ)
    (hyper : String → ℚ) (steps : List (List ActionVar)) :
    List (List ActionVar) × List Bool :=
  let boxed := steps.map (fun s => (slp_project_to_box cfg flog hyper s).1)
  let results := boxed.map (sorting_project cfg flog hyper)
  (results.map Prod.fst, results.map Prod.snd)

/-- The hard-thresholded boolean test action of
`_jax_wrapped_slp_predict_test`: `action > bool_threshold`. -/
def testBoolAction (cfg : PlanConfig) (p : ℚ) : Bool :=
  decide (boolThreshold cfg < p)

/-- Number of boolean action entries whose thresholded test action differs
from the no-op value of their fluent ("active" entries) at one step. -/
def activeCount (cfg : PlanConfig) (vars : List ActionVar) : ℕ :=
  ((vars.filter (fun v => v.range = RangeTag.bool)).map
    (fun v => v.param.countP (fun p => testBoolAction cfg p != v.noop))).sum

/-- `_count_bool_actions`: the total number of boolean action entries
(`np.size` summed over boolean action fluents); here the size of a fluent
is the length of its per-step parameter slice. -/
def count_bool_actions (vars : List ActionVar) : ℕ :=
  ((vars.filter (fun v => v.range = RangeTag.bool)).map
    (fun v => v.param.length)).sum

/-- Which projection `JaxStraightLinePlan.compile` installs. -/
inductive ProjKind
  | box
  | sortingMax
  | sogbofaMax
deriving DecidableEq, Repr

/-- The projection-selection logic of `JaxStraightLinePlan.compile`:
`use_constraint_satisfaction = allowed_actions < bool_action_count`; with
`wrap_softmax` only the box projection is installed (after rejecting
`1 < allowed_actions < bool_action_count`); with `use_new_projection` the
sorting projection; otherwise the SOGBOFA projection; without constraint
satisfaction just the box projection.  `Except.error` models the raised
`RDDLNotImplementedError`. -/
def projectionChoice (cfg : PlanConfig) (boolActionCount : ℕ) :
    Except Unit ProjKind :=
  let useCS := cfg.allowedActions < boolActionCount
  if useCS ∧ cfg.wrapSoftmax then
    if 1 < cfg.allowedActions ∧ cfg.allowedActions < boolActionCount then
      Except.error ()
    else Except.ok ProjKind.box
  else if useCS ∧ cfg.useNewProjection then Except.ok ProjKind.sortingMax
  else if useCS ∧ ¬ cfg.useNewProjection then Except.ok ProjKind.sogbofaMax
  else Except.ok ProjKind.box

/-!
### SOGBOFA iterative surplus-subtraction projection
-/

/-- `_jax_wrapped_sogbofa_surplus`: the aggregate excess active mass above
`max_allowed_actions`, divided by the count of currently-active entries
(at least 1). -/
def sogbofa_surplus (cfg : PlanConfig) (fexp : ℚ → ℚ) (hyper : String → ℚ)
    (vars : List ActionVar) : ℚ :=
  let boolVars := vars.filter (fun v => v.range = RangeTag.bool)
  let sumAction : ℚ :=
    (boolVars.map (fun v =>
      let actions := v.param.map (bool_param_to_action cfg fexp (hyper v.name))
      if v.noop then (v.param.length : ℚ) - actions.sum else actions.sum)).sum
  let count : ℕ :=
    (boolVars.map (fun v =>
      let actions := v.param.map (bool_param_to_action cfg fexp (hyper v.name))
      if v.noop then actions.countP (fun a => decide (a < 1))
      else actions.countP (fun a => decide (0 < a)))).sum
  let surplus := max (sumAction - (cfg.allowedActions : ℚ)) 0
  let count' := max count 1
  surplus / (count' : ℚ)

/-- State of the `jax.lax.while_loop` inside
`_jax_wrapped_sogbofa_project`: iteration counter, parameters and current
surplus (the hyper-parameters are loop-invariant and threaded
separately). -/
structure SogState where
  it : ℕ
  params : List ActionVar
  surplus : ℚ

/-- `_jax_wrapped_sogbofa_continue`: keep looping while the iteration cap
is not reached and the surplus is positive. -/
def sogbofa_continue (cfg : PlanConfig) (s : SogState) : Bool :=
  decide (s.it < cfg.maxConstraintIter) && decide (0 < s.surplus)

/-- `_jax_wrapped_sogbofa_subtract_surplus`: shift every boolean action by
the surplus (up for no-op `True`, down otherwise), clip to the safe
probability range, map back to parameter space and recompute the
surplus. -/
def sogbofa_subtract_surplus (cfg : PlanConfig) (flog fexp : ℚ → ℚ)
    (hyper : String → ℚ) (s : SogState) : SogState :=
  let newParams := s.params.map (fun v =>
    if v.range = RangeTag.bool then
      { v with param := v.param.map (fun p =>
          let action := bool_param_to_action cfg fexp (hyper v.name) p
          let newAction := clip (action + (if v.noop then s.surplus else -s.surplus))
            cfg.minActionProb (1 - cfg.minActionProb)
          bool_action_to_param cfg flog (hyper v.name) newAction) }
    else v)
  ⟨s.it + 1, newParams, sogbofa_surplus cfg fexp hyper newParams⟩

/-- Fuel-indexed unfolding of the `jax.lax.while_loop`.  The loop
condition forces `it < max_constraint_iter` and the body increments `it`,
so fuel `max_constraint_iter` always reaches a state where the condition
is false (proved below). -/
def sogbofaRun (cfg : PlanConfig) (flog fexp : ℚ → ℚ) (hyper : String → ℚ) :
    ℕ → SogState → SogState
  | 0, s => s
  | fuel + 1, s =>
    if sogbofa_continue cfg s then
      sogbofaRun cfg flog fexp hyper fuel (sogbofa_subtract_surplus cfg flog fexp hyper s)
    else s

/-- `_jax_wrapped_sogbofa_project` on one time-step slice: run the loop
from the initial surplus and report convergence as
`not (surplus > 0)` at loop exit. -/
def sogbofa_project (cfg : PlanConfig) (flog fexp : ℚ → ℚ) (hyper : String → ℚ)
    (vars : List ActionVar) : List ActionVar × Bool :=
  let s := sogbofaRun cfg flog fexp hyper cfg.maxConstraintIter
    ⟨0, vars, sogbofa_surplus cfg fexp hyper vars⟩
  (s.params, !(decide (0 < s.surplus)))

/-!
### Utility functions
-/

/-- `jax.scipy.special.logsumexp(xs, b) = log (Σ_i b * exp xs_i)` (the
max-shifted evaluation the library uses is algebraically this value). -/
def logsumexp (flog fexp : ℚ → ℚ) (xs : List ℚ) (b : ℚ) : ℚ :=
  flog ((xs.map (fun x => b * fexp x)).sum)

/-- `entropic_utility(returns, beta) =
(-1.0 / beta) * logsumexp(-beta * returns, b=1.0 / returns.size)`. -/
def entropic_utility (flog fexp : ℚ → ℚ) (returns : List ℚ) (beta : ℚ) : ℚ :=
  (-1 / beta) * logsumexp flog fexp (returns.map (fun r => -beta * r))
    (1 / (returns.length : ℚ))

/-- The formula the specification states for the entropic utility:
`(-1/β)·log(Σ_i exp(-β·returns_i))`, without the `1/n` weights. -/
def entropic_utility_spec (flog fexp : ℚ → ℚ) (returns : List ℚ) (beta : ℚ) : ℚ :=
  (-1 / beta) * flog ((returns.map (fun r => fexp (-beta * r))).sum)

/-!
### Float values with non-finite outcomes
-/

/-- A machine-float loss value: a finite rational, `±inf`, or NaN. -/
inductive FVal
  | fin (q : ℚ)
  | inf
  | negInf
  | nan
deriving DecidableEq, Repr

/-- `np.isfinite`. -/
def FVal.isFinite : FVal → Bool
  | FVal.fin _ => true
  | _ => false

/-- IEEE `<`: any comparison with NaN is false. -/
def FVal.lt : FVal → FVal → Bool
  | FVal.nan, _ => false
  | _, FVal.nan => false
  | FVal.fin a, FVal.fin b => decide (a < b)
  | FVal.fin _, FVal.inf => true
  | FVal.fin _, FVal.negInf => false
  | FVal.inf, _ => false
  | FVal.negInf, FVal.negInf => false
  | FVal.negInf, _ => true

/-- IEEE negation. -/
def FVal.neg : FVal → FVal
  | FVal.fin q => FVal.fin (-q)
  | FVal.inf => FVal.negInf
  | FVal.negInf => FVal.inf
  | FVal.nan => FVal.nan

/-- IEEE addition (NaN absorbing, `inf + (-inf) = NaN`). -/
def FVal.add : FVal → FVal → FVal
  | FVal.nan, _ => FVal.nan
  | _, FVal.nan => FVal.nan
  | FVal.inf, FVal.negInf => FVal.nan
  | FVal.negInf, FVal.inf => FVal.nan
  | FVal.inf, _ => FVal.inf
  | _, FVal.inf => FVal.inf
  | FVal.negInf, _ => FVal.negInf
  | _, FVal.negInf => FVal.negInf
  | FVal.fin a, FVal.fin b => FVal.fin (a + b)

/-- IEEE subtraction. -/
def FVal.sub (a b : FVal) : FVal := a.add b.neg

/-- Division by a (positive, in every call site) natural number. -/
def FVal.divNat : FVal → ℕ → FVal
  | FVal.fin q, n => FVal.fin (q / (n : ℚ))
  | FVal.inf, _ => FVal.inf
  | FVal.negInf, _ => FVal.negInf
  | FVal.nan, _ => FVal.nan

/-!
### RollingMean
-/

/-- `RollingMean`: a fixed-capacity deque of the most recent values and a
running total. -/
structure RollingMean where
  windowSize : ℕ
  memory : List FVal
  total : FVal

/-- `RollingMean.__init__`. -/
def RollingMean.mk0 (w : ℕ) : RollingMean := ⟨w, [], FVal.fin 0⟩

/-- `RollingMean.update`: add the new value to the total, evict the oldest
value when the deque is full, append the new value, and return the mean
over the stored values.  (`headD` stands for `popleft`; every use in the
source has `window_size ≥ 1`, so the deque is non-empty whenever it is
full.) -/
def RollingMean.update (rm : RollingMean) (x : FVal) : FVal × RollingMean :=
  let total := rm.total.add x
  let (total, memory) :=
    if rm.memory.length = rm.windowSize then
      (total.sub (rm.memory.headD (FVal.fin 0)), rm.memory.tail)
    else (total, rm.memory)
  let memory := memory ++ [x]
  (total.divNat memory.length, ⟨rm.windowSize, memory, total⟩)

/-!
### Planner status and the optimization driver loop

The jitted numeric subroutines of `JaxBackpropPlanner` (the gradient of
the relaxed rollout loss, the optax transform, the loss evaluations, the
wall-clock comparison and the `np.allclose` test on the gradient tree)
are external computations; the loop is embedded over an environment
record holding them as abstract functions of the iteration index and the
current parameters, while the control flow, status computation, rolling
mean, best-checkpoint tracking and yielding are translated directly from
`optimize_generator`.
-/

/-- `JaxPlannerStatus`. -/
inductive JaxPlannerStatus
  | NORMAL
  | NO_PROGRESS
  | PRECONDITION_POSSIBLY_UNSATISFIED
  | TIME_BUDGET_REACHED
  | ITER_BUDGET_REACHED
  | INVALID_GRADIENT
deriving DecidableEq, Repr

/-- The enum value of each status. -/
def JaxPlannerStatus.value : JaxPlannerStatus → ℕ
  | JaxPlannerStatus.NORMAL => 0
  | JaxPlannerStatus.NO_PROGRESS => 1
  | JaxPlannerStatus.PRECONDITION_POSSIBLY_UNSATISFIED => 2
  | JaxPlannerStatus.TIME_BUDGET_REACHED => 3
  | JaxPlannerStatus.ITER_BUDGET_REACHED => 4
  | JaxPlannerStatus.INVALID_GRADIENT => 5

/-- `JaxPlannerStatus.is_failure`: `self.value >= 3`. -/
def JaxPlannerStatus.isFailure (s : JaxPlannerStatus) : Bool :=
  decide (3 ≤ s.value)

/-- The per-iteration status assignments of `optimize_generator`, in
source order: start from `NORMAL`; downgrade to
`PRECONDITION_POSSIBLY_UNSATISFIED` when the projection did not converge;
then the sequence of `if` statements each of which overwrites the status
when its condition holds (time budget, iteration budget, non-finite
training loss, all-zero gradient). -/
def statusOf (converged timeUp iterEnd trainFinite gradZero : Bool) :
    JaxPlannerStatus :=
  let s := if converged then JaxPlannerStatus.NORMAL
           else JaxPlannerStatus.PRECONDITION_POSSIBLY_UNSATISFIED
  let s := if timeUp then JaxPlannerStatus.TIME_BUDGET_REACHED else s
  let s := if iterEnd then JaxPlannerStatus.ITER_BUDGET_REACHED else s
  let s := if !trainFinite then JaxPlannerStatus.INVALID_GRADIENT else s
  if gradZero then JaxPlannerStatus.NO_PROGRESS else s

/-- The status determination the specification claims: an if/elif chain
in the order time budget, iteration budget, non-finite loss, zero
gradient, with `NORMAL`/`PRECONDITION_POSSIBLY_UNSATISFIED` when none
holds. -/
def statusSpecClaimed (converged timeUp iterEnd trainFinite gradZero : Bool) :
    JaxPlannerStatus :=
  if timeUp then JaxPlannerStatus.TIME_BUDGET_REACHED
  else if iterEnd then JaxPlannerStatus.ITER_BUDGET_REACHED
  else if !trainFinite then JaxPlannerStatus.INVALID_GRADIENT
  else if gradZero then JaxPlannerStatus.NO_PROGRESS
  else if converged then JaxPlannerStatus.NORMAL
  else JaxPlannerStatus.PRECONDITION_POSSIBLY_UNSATISFIED

/-- The status determination the code actually performs, as an if/elif
chain: the same four halting conditions with the priority reversed
(all-zero gradient strongest, time budget weakest). -/
def statusSpecAmended (converged timeUp iterEnd trainFinite gradZero : Bool) :
    JaxPlannerStatus :=
  if gradZero then JaxPlannerStatus.NO_PROGRESS
  else if !trainFinite then JaxPlannerStatus.INVALID_GRADIENT
  else if iterEnd then JaxPlannerStatus.ITER_BUDGET_REACHED
  else if timeUp then JaxPlannerStatus.TIME_BUDGET_REACHED
  else if converged then JaxPlannerStatus.NORMAL
  else JaxPlannerStatus.PRECONDITION_POSSIBLY_UNSATISFIED

/-- The external numeric subroutines `optimize_generator` calls, plus the
iteration budget `epochs`.  `P` is the policy-parameter pytree, `G` the
gradient pytree, `U` the optax update pytree, `OS` the optimizer state.
`gradFn it p` is the training-loss gradient computed with the iteration's
fresh random key; `timeUpF it` is the comparison
`elapsed >= train_seconds`; `gz` is `np.all(np.allclose(·, 0))` over the
gradient tree. -/
structure DriverEnv (P G U OS : Type) where
  epochs : ℕ
  gradFn : ℕ → P → G
  optUpdate : G → OS → U × OS
  applyUpdates : P → U → P
  proj : P → P × Bool
  trainLossF : ℕ → P → FVal
  testLossF : ℕ → P → FVal
  timeUpF : ℕ → Bool
  gz : G → Bool

/-- Result of `_jax_wrapped_plan_update`. -/
structure UpdateResult (P G OS : Type) where
  params : P
  converged : Bool
  optState : OS
  grad : G

/-- `_jax_wrapped_plan_update`: compute the gradient, apply one optimizer
update, then project the parameters back onto the feasible set. -/
def plan_update {P G U OS : Type} (env : DriverEnv P G U OS) (it : ℕ)
    (p : P) (os : OS) : UpdateResult P G OS :=
  let grad := env.gradFn it p
  let (updates, os') := env.optUpdate grad os
  let p' := env.applyUpdates p updates
  let (p'', converged) := env.proj p'
  ⟨p'', converged, os', grad⟩

/-- The running state of the training loop. -/
structure DriverState (P G OS : Type) where
  params : P
  optState : OS
  bestParams : P
  bestLoss : FVal
  bestGrad : Option G
  lastIterImprove : ℕ
  rolling : RollingMean

/-- The loop state just before the first iteration: `best_params` is the
initial parameters, `best_loss = jnp.inf`, `best_grad = jnp.inf`
(modelled as `none`), and an empty rolling window. -/
def initDriverState {P G OS : Type} (p0 : P) (os0 : OS) (window : ℕ) :
    DriverState P G OS :=
  ⟨p0, os0, p0, FVal.inf, none, 0, RollingMean.mk0 window⟩

/-- The fields of the yielded per-iteration callback dictionary that the
claims refer to. -/
structure IterRecord (P G : Type) where
  status : JaxPlannerStatus
  iteration : ℕ
  params : P
  bestParams : P
  grad : G
deriving Repr

/-- One iteration of the training loop of `optimize_generator`: update
the parameters, evaluate the losses, smooth the test loss, update the
best checkpoint when the smoothed test loss improves, and compute the
status. -/
def iterStep {P G U OS : Type} (env : DriverEnv P G U OS) (it : ℕ)
    (st : DriverState P G OS) : IterRecord P G × DriverState P G OS :=
  let u := plan_update env it st.params st.optState
  let trainLoss := env.trainLossF it u.params
  let roll := st.rolling.update (env.testLossF it u.params)
  let testLoss := roll.1
  let improved := testLoss.lt st.bestLoss
  let bestParams := if improved then u.params else st.bestParams
  let bestLoss := if improved then testLoss else st.bestLoss
  let bestGrad := if improved then some u.grad else st.bestGrad
  let lastIterImprove := if improved then it else st.lastIterImprove
  let status := statusOf u.converged (env.timeUpF it)
    (decide (env.epochs - 1 ≤ it)) trainLoss.isFinite (env.gz u.grad)
  (⟨status, it, u.params, bestParams, u.grad⟩,
   ⟨u.params, u.optState, bestParams, bestLoss, bestGrad, lastIterImprove, roll.2⟩)

/-- The `for it in range(epochs)` loop from iteration `it` on, with
`fuel` the number of remaining iterations (`epochs - it`, so the loop
guard `it < epochs` is exactly `fuel > 0`): run an iteration, yield its
record, and stop right after yielding a record whose status
`is_failure`. -/
def runFromAux {P G U OS : Type} (env : DriverEnv P G U OS) :
    ℕ → ℕ → DriverState P G OS → List (IterRecord P G)
  | 0, _, _ => []
  | fuel + 1, it, st =>
    let r := (iterStep env it st).1
    if r.status.isFailure then [r]
    else r :: runFromAux env fuel (it + 1) (iterStep env it st).2

/-- The training loop from iteration `it` on. -/
def runFrom {P G U OS : Type} (env : DriverEnv P G U OS) (it : ℕ)
    (st : DriverState P G OS) : List (IterRecord P G) :=
  runFromAux env (env.epochs - it) it st

/-- `optimize_generator`: the lazily yielded sequence of iteration
records. -/
def optimize_generator {P G U OS : Type} (env : DriverEnv P G U OS)
    (p0 : P) (os0 : OS) (window : ℕ) : List (IterRecord P G) :=
  runFrom env 0 (initDriverState p0 os0 window)

/-- `optimize`: exhaust the generator (`deque(it, maxlen=1).pop()`) and
return the `best_params` entry of the last yielded record. -/
def optimize {P G U OS : Type} (env : DriverEnv P G U OS)
    (p0 : P) (os0 : OS) (window : ℕ) : Option P :=
  (optimize_generator env p0 os0 window).getLast?.map IterRecord.bestParams

/-!
### get_action

`get_action` validates the supplied state dictionary entry by entry:
a key containing `RDDLPlanningModel.FLUENT_SEP` or `OBJECT_SEP` is a
grounded key and is rejected; a value whose dtype is neither numeric nor
boolean is rejected unless it belongs to an observation fluent queried at
step 0, in which case it is replaced by the compiled initial value; the
surviving dictionary is passed to the test policy.  Keys are modelled as
`List Char`, the separator constants (imported from the external
`pyRDDLGym` model module) as parameters, values as an abstract type `V`
with dtype test `isNumeric`, and `self.rddl.observ_fluents` /
`self.test_compiled.init_values` / `self.test_policy` as abstract
functions.
-/

/-- Python `pat in s` on character lists. -/
def startsWithSeq : List Char → List Char → Bool
  | [], _ => true
  | _ :: _, [] => false
  | p :: ps, c :: cs => p == c && startsWithSeq ps cs

/-- Whether `pat` occurs as a contiguous subsequence of `l`. -/
def containsSeq (pat : List Char) : List Char → Bool
  | [] => startsWithSeq pat []
  | c :: cs => startsWithSeq pat (c :: cs) || containsSeq pat cs

/-- The environment of `get_action` that is external to the checked
loop. -/
structure GetActionEnv (V A : Type) where
  fluentSep : List Char
  objectSep : List Char
  isNumeric : V → Bool
  observ : List Char → Bool
  initValues : List Char → V
  testPolicy : List (List Char × V) → A

/-- Whether a key indicates a grounded (non-vectorized) state. -/
def groundedKey {V A : Type} (env : GetActionEnv V A) (var : List Char) : Bool :=
  containsSeq env.fluentSep var || containsSeq env.objectSep var

/-- The validation loop of `get_action` over the `subs` items: reject
grounded keys; reject non-numeric values except for observation fluents
at step 0, which are replaced by their initial values.  `Except.error`
models the raised `ValueError`. -/
def checkSubs {V A : Type} (env : GetActionEnv V A) (step : ℕ) :
    List (List Char × V) → Except Unit (List (List Char × V))
  | [] => Except.ok []
  | (var, val) :: rest =>
    if groundedKey env var then Except.error ()
    else if !env.isNumeric val then
      if step = 0 ∧ env.observ var then
        (checkSubs env step rest).map (fun r => (var, env.initValues var) :: r)
      else Except.error ()
    else (checkSubs env step rest).map (fun r => (var, val) :: r)

/-- `get_action`: validate the state dictionary and query the test
policy on the (possibly repaired) dictionary. -/
def get_action {V A : Type} (env : GetActionEnv V A) (step : ℕ)
    (subs : List (List Char × V)) : Except Unit A :=
  (checkSubs env step subs).map env.testPolicy

/-!
## Theorems
-/

/-!
### C7: the entropic utility
-/

/-- A computable stand-in for `log` used in concrete instances: it agrees
with the real logarithm at the argument `1` (`log 1 = 0`) and is positive
at `2`, which is all the evaluations below depend on. -/
def flogStubC7 (x : ℚ) : ℚ := x - 1

/-- A computable stand-in for `exp`: it agrees with the real exponential
at the argument `0` (`exp 0 = 1`), which is all the evaluations below
depend on. -/
def fexpStubC7 (x : ℚ) : ℚ := x + 1

/-- C7 counterexample: on the batch `returns = [0, 0]` with `β = 1` the
code computes `(-1/β)·log((1/2)·(exp 0 + exp 0)) = -log 1 = 0`, while the
claimed formula `(-1/β)·log(exp 0 + exp 0) = -log 2` is negative: the
code weights the logsumexp by `b = 1/returns.size`, the claim omits the
weight.  (With the stand-ins, both sides evaluate exactly as the real
`log`/`exp` would on the points reached: `0` versus `-log 2 < 0`.) -/
theorem C7_counterexample :
    entropic_utility flogStubC7 fexpStubC7 [0, 0] 1 = 0 ∧
    entropic_utility_spec flogStubC7 fexpStubC7 [0, 0] 1 = -1 ∧
    (0 : ℚ) ≠ -1 ∧ (0 : ℚ) < 1 ∧ ([(0 : ℚ), 0] ≠ []) := by
  refine ⟨?_, ?_, by norm_num, by norm_num, by simp⟩ <;>
    norm_num [entropic_utility, entropic_utility_spec, logsumexp,
      flogStubC7, fexpStubC7]

/-- C7 (amended): for every non-empty returns array and `β > 0`, the
entropic utility equals `(-1/β)·log((1/n)·Σ_i exp(-β·returns_i))`, i.e.
the logsumexp is taken with uniform sample weights `b = 1/n`. -/
theorem C7_entropic_utility_weighted (flog fexp : ℚ → ℚ) (returns : List ℚ)
    (beta : ℚ) (hbeta : 0 < beta) (hne : returns ≠ []) :
    entropic_utility flog fexp returns beta =
      (-1 / beta) * flog ((1 / (returns.length : ℚ)) *
        ((returns.map (fun r => fexp (-beta * r))).sum)) := by
  unfold entropic_utility logsumexp
  rw [List.map_map,
    show ((fun x => (1 / (returns.length : ℚ)) * fexp x) ∘ fun r => -beta * r)
      = fun r => (1 / (returns.length : ℚ)) * fexp (-beta * r) from rfl,
    List.sum_map_mul_left]

/-- Witness for C7: the amended statement instantiated at
`returns = [0]`, `β = 1` and identity numeric routines. -/
theorem C7_entropic_utility_weighted_witness :
    (0 : ℚ) < 1 ∧ ([(0 : ℚ)] ≠ []) ∧
    entropic_utility id id [(0 : ℚ)] 1 =
      (-1 / 1) * id ((1 / (([(0 : ℚ)].length : ℚ))) *
        (([(0 : ℚ)].map (fun r => id (-1 * r))).sum)) :=
  ⟨by norm_num, by simp,
    C7_entropic_utility_weighted id id [(0 : ℚ)] 1 (by norm_num) (by simp)⟩

/-!
### C6: boolean action/parameter round trip
-/

/-- C6: for both wrapping modes, a positive sigmoid weight, an action
value strictly inside `(min_action_prob, 1 - min_action_prob)`, and
numeric routines satisfying `exp (log x) = x` at the reached point,
`param_to_action (action_to_param a) = a` (exactly, in the rational
model; "within floating tolerance" in the float implementation). -/
theorem C6_bool_roundtrip (cfg : PlanConfig) (flog fexp : ℚ → ℚ) (w a : ℚ)
    (hw : 0 < w) (hmin : 0 < cfg.minActionProb)
    (ha1 : cfg.minActionProb < a) (ha2 : a < 1 - cfg.minActionProb)
    (hexp : fexp (flog (1 / a - 1)) = 1 / a - 1) :
    bool_param_to_action cfg fexp w (bool_action_to_param cfg flog w a) = a := by
  have ha0 : 0 < a := lt_trans hmin ha1
  have hw0 : w ≠ 0 := ne_of_gt hw
  have ha0' : a ≠ 0 := ne_of_gt ha0
  unfold bool_param_to_action bool_action_to_param sigmoid
  cases hws : cfg.wrapSigmoid
  · simp [hws]
  · simp only [hws, eq_self_iff_true, if_true]
    have h1 : -(w * (-1 / w * flog (1 / a - 1))) = flog (1 / a - 1) := by
      field_simp
    rw [h1, hexp]
    have h2 : 1 + (1 / a - 1) = 1 / a := by ring
    rw [h2, one_div_one_div]

/-- The plan configuration used to instantiate witnesses. -/
def cfgC6 : PlanConfig :=
  { wrapSigmoid := true
    minActionProb := 1/4
    wrapNonBool := false
    wrapSoftmax := false
    useNewProjection := true
    maxConstraintIter := 100
    allowedActions := 1 }

/-- Witness for C6: the round trip at `a = 1/2`, weight `1`, in sigmoid
mode with identity numeric routines (for which `exp (log 1) = 1`
holds definitionally). -/
theorem C6_bool_roundtrip_witness :
    (0 : ℚ) < 1 ∧ (0 : ℚ) < cfgC6.minActionProb ∧
    cfgC6.minActionProb < 1/2 ∧ (1/2 : ℚ) < 1 - cfgC6.minActionProb ∧
    id (id ((1 : ℚ) / (1/2) - 1)) = 1 / (1/2 : ℚ) - 1 ∧
    bool_param_to_action cfgC6 id 1 (bool_action_to_param cfgC6 id 1 (1/2)) = 1/2 :=
  ⟨by norm_num, by norm_num [cfgC6], by norm_num [cfgC6], by norm_num [cfgC6],
    by norm_num,
    C6_bool_roundtrip cfgC6 id id 1 (1/2) (by norm_num)
      (by norm_num [cfgC6]) (by norm_num [cfgC6]) (by norm_num [cfgC6])
      (by norm_num)⟩

/-!
### C4: the SOGBOFA projection loop
-/

/-- Invariant of the fuel-indexed while loop: starting the loop with
`it + fuel = max_constraint_iter`, the exit state has `it ≤ cap`, has
the loop condition false, and can only keep a positive surplus when the
cap was reached. -/
theorem sogbofaRun_exit (cfg : PlanConfig) (flog fexp : ℚ → ℚ)
    (hyper : String → ℚ) :
    ∀ (fuel : ℕ) (s : SogState), s.it + fuel = cfg.maxConstraintIter →
      (sogbofaRun cfg flog fexp hyper fuel s).it ≤ cfg.maxConstraintIter ∧
      sogbofa_continue cfg (sogbofaRun cfg flog fexp hyper fuel s) = false ∧
      (0 < (sogbofaRun cfg flog fexp hyper fuel s).surplus →
        (sogbofaRun cfg flog fexp hyper fuel s).it = cfg.maxConstraintIter) := by
  intro fuel
  induction fuel with
  | zero =>
    intro s hs
    simp only [sogbofaRun]
    refine ⟨by omega, ?_, fun _ => by omega⟩
    simp only [sogbofa_continue, Bool.and_eq_false_iff, decide_eq_false_iff_not]
    left
    omega
  | succ fuel ih =>
    intro s hs
    simp only [sogbofaRun]
    by_cases hc : sogbofa_continue cfg s = true
    · rw [if_pos hc]
      exact ih _ (by simp [sogbofa_subtract_surplus]; omega)
    · rw [if_neg hc]
      have hc' := hc
      simp only [sogbofa_continue, Bool.and_eq_true, decide_eq_true_eq,
        not_and, not_lt] at hc'
      refine ⟨by omega, by simpa using hc, fun hpos => ?_⟩
      by_cases hit : s.it < cfg.maxConstraintIter
      · exact absurd (by simp [sogbofa_continue, hit, hpos]) hc
      · omega

/-- C4: the SOGBOFA projection executes at most `max_constraint_iter`
shift-reclip-recompute iterations (the exit iteration counter, which
counts body executions from `0`, never exceeds the cap); its converged
flag is `True` iff the surplus at loop exit is not positive; and it
reports failure exactly when the cap was reached while the surplus is
still positive. -/
theorem C4_sogbofa_termination (cfg : PlanConfig) (flog fexp : ℚ → ℚ)
    (hyper : String → ℚ) (vars : List ActionVar) :
    (sogbofaRun cfg flog fexp hyper cfg.maxConstraintIter
        ⟨0, vars, sogbofa_surplus cfg fexp hyper vars⟩).it ≤ cfg.maxConstraintIter ∧
    ((sogbofa_project cfg flog fexp hyper vars).2 = true ↔
      ¬ (0 < (sogbofaRun cfg flog fexp hyper cfg.maxConstraintIter
        ⟨0, vars, sogbofa_surplus cfg fexp hyper vars⟩).surplus)) ∧
    ((sogbofa_project cfg flog fexp hyper vars).2 = false ↔
      ((sogbofaRun cfg flog fexp hyper cfg.maxConstraintIter
          ⟨0, vars, sogbofa_surplus cfg fexp hyper vars⟩).it = cfg.maxConstraintIter ∧
        0 < (sogbofaRun cfg flog fexp hyper cfg.maxConstraintIter
          ⟨0, vars, sogbofa_surplus cfg fexp hyper vars⟩).surplus)) := by
  obtain ⟨h1, _h2, h3⟩ := sogbofaRun_exit cfg flog fexp hyper
    cfg.maxConstraintIter ⟨0, vars, sogbofa_surplus cfg fexp hyper vars⟩
    (by simp)
  refine ⟨h1, ?_, ?_⟩
  · simp [sogbofa_project]
  · constructor
    · intro hfail
      have hpos : 0 < (sogbofaRun cfg flog fexp hyper cfg.maxConstraintIter
          ⟨0, vars, sogbofa_surplus cfg fexp hyper vars⟩).surplus := by
        by_contra hnp
        simp [sogbofa_project, hnp] at hfail
      exact ⟨h3 hpos, hpos⟩
    · intro ⟨_, hpos⟩
      simp [sogbofa_project, hpos]

/-!
### C2: order of the halting-condition checks
-/

/-- The sequentially-overwriting status assignments of the source are
equivalent to an if/elif chain with the priority reversed with respect to
the claimed one. -/
theorem statusOf_eq_amended (c t i f g : Bool) :
    statusOf c t i f g = statusSpecAmended c t i f g := by
  cases c <;> cases t <;> cases i <;> cases f <;> cases g <;> rfl

/-- The environment exhibiting the C2 counterexample: one epoch, the time
budget already exhausted, a finite loss, a nonzero gradient and a
converged projection. -/
def envC2X : DriverEnv ℚ ℚ ℚ ℚ :=
  { epochs := 1
    gradFn := fun _ _ => 1
    optUpdate := fun g os => (g, os)
    applyUpdates := fun p u => p + u
    proj := fun p => (p, true)
    trainLossF := fun _ _ => FVal.fin 0
    testLossF := fun _ _ => FVal.fin 0
    timeUpF := fun _ => true
    gz := fun _ => false }

/-- C2 counterexample: at an iteration where both the time budget and the
iteration budget are reached (with finite loss, nonzero gradient,
converged projection), the claimed if/elif order yields
`TIME_BUDGET_REACHED`, but the loop yields `ITER_BUDGET_REACHED`: the
later check overwrites the earlier one. -/
theorem C2_counterexample :
    (optimize_generator envC2X 0 0 10).map (fun r => r.status) =
      [JaxPlannerStatus.ITER_BUDGET_REACHED] ∧
    statusSpecClaimed true true true true false =
      JaxPlannerStatus.TIME_BUDGET_REACHED ∧
    JaxPlannerStatus.ITER_BUDGET_REACHED ≠ JaxPlannerStatus.TIME_BUDGET_REACHED ∧
    envC2X.timeUpF 0 = true ∧ envC2X.epochs - 1 ≤ 0 ∧
    (envC2X.trainLossF 0 1).isFinite = true ∧ envC2X.gz 1 = false := by
  refine ⟨?_, by rfl, by decide, by rfl, by decide, by rfl, by rfl⟩
  norm_num [optimize_generator, runFrom, runFromAux, iterStep, plan_update,
    initDriverState, RollingMean.update, RollingMean.mk0, statusOf,
    FVal.add, FVal.divNat, FVal.lt, FVal.isFinite,
    JaxPlannerStatus.isFailure, JaxPlannerStatus.value, envC2X]

/-- C2 (amended): in every iteration of the loop, the yielded status is
determined by the four halting conditions and the projection-convergence
flag checked as an if/elif chain in the reverse of the claimed order:
all-zero gradient → `NO_PROGRESS`; else non-finite training loss →
`INVALID_GRADIENT`; else iteration budget → `ITER_BUDGET_REACHED`; else
time budget → `TIME_BUDGET_REACHED`; else `NORMAL`, downgraded to
`PRECONDITION_POSSIBLY_UNSATISFIED` when the projection failed to
converge. -/
theorem C2_status_determination_amended {P G U OS : Type}
    (env : DriverEnv P G U OS) (it : ℕ) (st : DriverState P G OS) :
    (iterStep env it st).1.status =
      statusSpecAmended (plan_update env it st.params st.optState).converged
        (env.timeUpF it) (decide (env.epochs - 1 ≤ it))
        (env.trainLossF it (plan_update env it st.params st.optState).params).isFinite
        (env.gz (plan_update env it st.params st.optState).grad) :=
  statusOf_eq_amended _ _ _ _ _

/-!
### C3: which statuses stop the loop
-/

/-- The loop yields at most as many records as it has remaining
iterations. -/
theorem runFromAux_length_le {P G U OS : Type} (env : DriverEnv P G U OS) :
    ∀ (fuel it : ℕ) (st : DriverState P G OS),
      (runFromAux env fuel it st).length ≤ fuel := by
  intro fuel
  induction fuel with
  | zero => intro it st; simp [runFromAux]
  | succ fuel ih =>
    intro it st
    simp only [runFromAux]
    split
    · simp
    · simpa using ih (it + 1) (iterStep env it st).2

/-- Every yielded record except possibly the last has a non-failure
status: the loop stops immediately after yielding a failure record. -/
theorem runFromAux_dropLast_nonfailure {P G U OS : Type}
    (env : DriverEnv P G U OS) :
    ∀ (fuel it : ℕ) (st : DriverState P G OS),
      (runFromAux env fuel it st).dropLast.all
        (fun r => !r.status.isFailure) = true := by
  intro fuel
  induction fuel with
  | zero => intro it st; simp [runFromAux]
  | succ fuel ih =>
    intro it st
    simp only [runFromAux]
    split
    · simp
    · rename_i hfail
      cases hrest : runFromAux env fuel (it + 1) (iterStep env it st).2 with
      | nil => simp
      | cons x xs =>
        have := ih (it + 1) (iterStep env it st).2
        rw [hrest] at this
        simp only [List.dropLast_cons₂, List.all_cons, this, Bool.and_true]
        simpa using hfail

/-- Unless the loop broke on a failure status, it runs for exactly its
remaining iteration budget. -/
theorem runFromAux_full_or_failure {P G U OS : Type}
    (env : DriverEnv P G U OS) :
    ∀ (fuel it : ℕ) (st : DriverState P G OS),
      (runFromAux env fuel it st).length = fuel ∨
      (runFromAux env fuel it st).getLast?.map
        (fun r => r.status.isFailure) = some true := by
  intro fuel
  induction fuel with
  | zero => intro it st; simp [runFromAux]
  | succ fuel ih =>
    intro it st
    simp only [runFromAux]
    split
    · rename_i hfail
      right
      simpa using hfail
    · cases hrest : runFromAux env fuel (it + 1) (iterStep env it st).2 with
      | nil =>
        left
        rcases ih (it + 1) (iterStep env it st).2 with h | h
        · rw [hrest] at h
          simp at h
          simp [h]
        · rw [hrest] at h
          simp at h
      | cons x xs =>
        rcases ih (it + 1) (iterStep env it st).2 with h | h
        · left
          rw [hrest] at h
          simp only [List.length_cons] at h ⊢
          omega
        · right
          rw [hrest] at h
          simpa [List.getLast?_cons_cons, hrest] using h

/-- C3: the loop terminates immediately after yielding a record whose
status is a failure status (`TIME_BUDGET_REACHED`, `ITER_BUDGET_REACHED`
or `INVALID_GRADIENT` — exactly the statuses with `is_failure`), and
otherwise continues until the iteration budget is exhausted: every
non-final record is non-failure; a run shorter than `epochs` ends in a
failure record; and `NORMAL`, `NO_PROGRESS` and
`PRECONDITION_POSSIBLY_UNSATISFIED` (in particular an all-zero gradient
or a projection-convergence failure) are not failure statuses. -/
theorem C3_failure_statuses_stop_loop {P G U OS : Type}
    (env : DriverEnv P G U OS) (p0 : P) (os0 : OS) (window : ℕ) :
    (optimize_generator env p0 os0 window).length ≤ env.epochs ∧
    (optimize_generator env p0 os0 window).dropLast.all
      (fun r => !r.status.isFailure) = true ∧
    ((optimize_generator env p0 os0 window).length = env.epochs ∨
      (optimize_generator env p0 os0 window).getLast?.map
        (fun r => r.status.isFailure) = some true) ∧
    JaxPlannerStatus.NORMAL.isFailure = false ∧
    JaxPlannerStatus.NO_PROGRESS.isFailure = false ∧
    JaxPlannerStatus.PRECONDITION_POSSIBLY_UNSATISFIED.isFailure = false ∧
    JaxPlannerStatus.TIME_BUDGET_REACHED.isFailure = true ∧
    JaxPlannerStatus.ITER_BUDGET_REACHED.isFailure = true ∧
    JaxPlannerStatus.INVALID_GRADIENT.isFailure = true := by
  unfold optimize_generator runFrom
  rw [Nat.sub_zero]
  exact ⟨runFromAux_length_le env env.epochs 0 _,
    runFromAux_dropLast_nonfailure env env.epochs 0 _,
    runFromAux_full_or_failure env env.epochs 0 _,
    rfl, rfl, rfl, rfl, rfl, rfl⟩

/-!
### C5: behaviour on a non-finite training loss
-/

/-- A non-finite training loss yields `INVALID_GRADIENT` whenever the
gradient is not all-zero, whatever the other conditions. -/
theorem statusOf_invalid (c t i : Bool) :
    statusOf c t i false false = JaxPlannerStatus.INVALID_GRADIENT := by
  cases c <;> cases t <;> cases i <;> rfl

/-- C5 (amended): if the loop reaches iteration `it` and the training
loss there is non-finite while the gradient is not all numerically zero,
then that iteration's record is yielded with status `INVALID_GRADIENT`
and the loop halts there (it is the only remaining record); the
best-parameters checkpoint is left unchanged provided the smoothed test
loss does not improve on the best loss (in particular whenever the test
loss is also non-finite, since comparisons with NaN are false); and the
last record — whose `best_params` entry `optimize()` returns instead of
raising — carries that best checkpoint. -/
theorem C5_invalid_gradient_amended {P G U OS : Type}
    (env : DriverEnv P G U OS) (it : ℕ) (st : DriverState P G OS)
    (hit : it < env.epochs)
    (hfin : (env.trainLossF it
      (plan_update env it st.params st.optState).params).isFinite = false)
    (hgz : env.gz (plan_update env it st.params st.optState).grad = false) :
    runFrom env it st = [(iterStep env it st).1] ∧
    (iterStep env it st).1.status = JaxPlannerStatus.INVALID_GRADIENT ∧
    ((st.rolling.update (env.testLossF it
        (plan_update env it st.params st.optState).params)).1.lt st.bestLoss = false →
      (iterStep env it st).1.bestParams = st.bestParams) ∧
    (runFrom env it st).getLast?.map IterRecord.bestParams =
      some (iterStep env it st).1.bestParams := by
  have hstat : (iterStep env it st).1.status = JaxPlannerStatus.INVALID_GRADIENT := by
    show statusOf _ _ _
      (env.trainLossF it (plan_update env it st.params st.optState).params).isFinite
      (env.gz (plan_update env it st.params st.optState).grad) = _
    rw [hfin, hgz]
    exact statusOf_invalid _ _ _
  have hfail : (iterStep env it st).1.status.isFailure = true := by
    rw [hstat]; rfl
  obtain ⟨fuel, hfuel⟩ : ∃ f, env.epochs - it = f + 1 :=
    ⟨env.epochs - it - 1, by omega⟩
  have hrun : runFrom env it st = [(iterStep env it st).1] := by
    rw [runFrom, hfuel]
    simp [runFromAux, hfail]
  refine ⟨hrun, hstat, ?_, ?_⟩
  · intro himp
    show (if ((st.rolling.update (env.testLossF it
        (plan_update env it st.params st.optState).params)).1).lt st.bestLoss
      then (plan_update env it st.params st.optState).params
      else st.bestParams) = st.bestParams
    rw [himp]
    simp
  · rw [hrun]
    rfl

/-- The environment of the C5 witness: one epoch, NaN train and test
losses, a non-zero gradient. -/
def envC5W : DriverEnv ℚ ℚ ℚ ℚ :=
  { epochs := 1
    gradFn := fun _ _ => 1
    optUpdate := fun g os => (g, os)
    applyUpdates := fun p u => p + u
    proj := fun p => (p, true)
    trainLossF := fun _ _ => FVal.nan
    testLossF := fun _ _ => FVal.nan
    timeUpF := fun _ => false
    gz := fun _ => false }

/-- The initial loop state used by the C5 witness. -/
def stC5 : DriverState ℚ ℚ ℚ := @initDriverState ℚ ℚ ℚ 0 0 10

/-- Witness for C5: a NaN training and test loss at iteration 0 halts
the loop with `INVALID_GRADIENT` and leaves the best checkpoint at the
initial parameters. -/
theorem C5_invalid_gradient_amended_witness :
    0 < envC5W.epochs ∧
    (envC5W.trainLossF 0 (plan_update envC5W 0
      stC5.params
      stC5.optState).params).isFinite = false ∧
    envC5W.gz (plan_update envC5W 0
      stC5.params
      stC5.optState).grad = false ∧
    runFrom envC5W 0 stC5 =
      [(iterStep envC5W 0 stC5).1] ∧
    (iterStep envC5W 0 stC5).1.status =
      JaxPlannerStatus.INVALID_GRADIENT ∧
    (iterStep envC5W 0 stC5).1.bestParams =
      stC5.bestParams :=
  ⟨by decide,
   rfl,
   rfl,
   (C5_invalid_gradient_amended envC5W 0 _ (by decide) rfl rfl).1,
   (C5_invalid_gradient_amended envC5W 0 _ (by decide) rfl rfl).2.1,
   (C5_invalid_gradient_amended envC5W 0 _ (by decide) rfl rfl).2.2.1 rfl⟩

/-- The environment of the C5 counterexample: a NaN training loss but a
finite, improving test loss. -/
def envC5X : DriverEnv ℚ ℚ ℚ ℚ :=
  { epochs := 1
    gradFn := fun _ _ => 1
    optUpdate := fun g os => (g, os)
    applyUpdates := fun p u => p + u
    proj := fun p => (p, true)
    trainLossF := fun _ _ => FVal.nan
    testLossF := fun _ _ => FVal.fin (-5)
    timeUpF := fun _ => false
    gz := fun _ => false }

/-- C5 counterexample: the best-parameters update is gated on the test
loss, not the training loss, so an iteration with a NaN training loss but
an improving (finite) test loss does update the best checkpoint: the loop
halts with `INVALID_GRADIENT` as claimed, but `best_params` changes from
the prior value `0` to the freshly updated parameters `1`. -/
theorem C5_counterexample :
    (optimize_generator envC5X 0 0 10).map (fun r => (r.status, r.bestParams)) =
      [(JaxPlannerStatus.INVALID_GRADIENT, (1 : ℚ))] ∧
    (1 : ℚ) ≠ 0 ∧
    stC5.bestParams = 0 ∧
    (envC5X.trainLossF 0 1).isFinite = false := by
  refine ⟨?_, by norm_num, rfl, rfl⟩
  norm_num [optimize_generator, runFrom, runFromAux, iterStep, plan_update,
    initDriverState, RollingMean.update, RollingMean.mk0, statusOf,
    FVal.add, FVal.divNat, FVal.lt, FVal.isFinite,
    JaxPlannerStatus.isFailure, JaxPlannerStatus.value, envC5X]

/-!
### C8: a single-epoch run
-/

/-- With the iteration budget reached, a finite loss and a nonzero
gradient, the status is `ITER_BUDGET_REACHED` whatever the remaining
conditions. -/
theorem statusOf_iterEnd (c t : Bool) :
    statusOf c t true true false = JaxPlannerStatus.ITER_BUDGET_REACHED := by
  cases c <;> cases t <;> rfl

/-- C8 (amended): `optimize` with `epochs = 1` yields exactly one
iteration record whose parameters are the result of one optimizer update
followed by projection applied to the initial parameters; the record's
status is `ITER_BUDGET_REACHED` provided the training loss is finite and
the gradient is not all numerically zero (a non-finite loss or an
all-zero gradient overwrite the status with `INVALID_GRADIENT` or
`NO_PROGRESS` respectively). -/
theorem C8_single_epoch_amended {P G U OS : Type} (env : DriverEnv P G U OS)
    (p0 : P) (os0 : OS) (window : ℕ) (hep : env.epochs = 1) :
    (optimize_generator env p0 os0 window).length = 1 ∧
    (optimize_generator env p0 os0 window).map (fun r => r.params) =
      [(env.proj (env.applyUpdates p0 (env.optUpdate (env.gradFn 0 p0) os0).1)).1] ∧
    ((env.trainLossF 0 (plan_update env 0 p0 os0).params).isFinite = true →
      env.gz (plan_update env 0 p0 os0).grad = false →
      (optimize_generator env p0 os0 window).map (fun r => r.status) =
        [JaxPlannerStatus.ITER_BUDGET_REACHED]) := by
  have hL : optimize_generator env p0 os0 window =
      [(iterStep env 0 (initDriverState p0 os0 window)).1] := by
    unfold optimize_generator runFrom
    rw [Nat.sub_zero, hep]
    cases h : (iterStep env 0 (initDriverState p0 os0 window)).1.status.isFailure <;>
      simp [runFromAux, h]
  refine ⟨by rw [hL]; rfl, by rw [hL]; rfl, fun hfin hgz => ?_⟩
  rw [hL]
  have hstat : (iterStep env 0 (initDriverState p0 os0 window)).1.status =
      JaxPlannerStatus.ITER_BUDGET_REACHED := by
    show statusOf (plan_update env 0 p0 os0).converged (env.timeUpF 0)
      (decide (env.epochs - 1 ≤ 0))
      (env.trainLossF 0 (plan_update env 0 p0 os0).params).isFinite
      (env.gz (plan_update env 0 p0 os0).grad) = _
    rw [hfin, hgz, hep]
    exact statusOf_iterEnd _ _
  simp [hstat]

/-- The environment of the C8 witness: one epoch, finite losses, a
nonzero gradient. -/
def envC8W : DriverEnv ℚ ℚ ℚ ℚ :=
  { epochs := 1
    gradFn := fun _ _ => 1
    optUpdate := fun g os => (g, os)
    applyUpdates := fun p u => p + u
    proj := fun p => (p, true)
    trainLossF := fun _ _ => FVal.fin 0
    testLossF := fun _ _ => FVal.fin 0
    timeUpF := fun _ => false
    gz := fun _ => false }

/-- Witness for C8: a concrete one-epoch run yields exactly one record
with status `ITER_BUDGET_REACHED` and the once-updated, projected
parameters. -/
theorem C8_single_epoch_amended_witness :
    envC8W.epochs = 1 ∧
    (envC8W.trainLossF 0 (plan_update envC8W 0 (0 : ℚ) (0 : ℚ)).params).isFinite = true ∧
    envC8W.gz (plan_update envC8W 0 (0 : ℚ) (0 : ℚ)).grad = false ∧
    (optimize_generator envC8W 0 0 10).length = 1 ∧
    (optimize_generator envC8W 0 0 10).map (fun r => r.params) =
      [(envC8W.proj (envC8W.applyUpdates 0 (envC8W.optUpdate (envC8W.gradFn 0 0) 0).1)).1] ∧
    (optimize_generator envC8W 0 0 10).map (fun r => r.status) =
      [JaxPlannerStatus.ITER_BUDGET_REACHED] :=
  ⟨rfl, rfl, rfl,
   (C8_single_epoch_amended envC8W 0 0 10 rfl).1,
   (C8_single_epoch_amended envC8W 0 0 10 rfl).2.1,
   (C8_single_epoch_amended envC8W 0 0 10 rfl).2.2 rfl rfl⟩

/-- The environment of the C8 counterexample: one epoch but a gradient
that is all numerically zero. -/
def envC8X : DriverEnv ℚ ℚ ℚ ℚ :=
  { epochs := 1
    gradFn := fun _ _ => 0
    optUpdate := fun g os => (g, os)
    applyUpdates := fun p u => p + u
    proj := fun p => (p, true)
    trainLossF := fun _ _ => FVal.fin 0
    testLossF := fun _ _ => FVal.fin 0
    timeUpF := fun _ => false
    gz := fun g => decide (g = 0) }

/-- C8 counterexample: with `epochs = 1` but an all-zero gradient, the
single yielded record has status `NO_PROGRESS`, not the claimed
`ITER_BUDGET_REACHED` (the zero-gradient check overwrites the
iteration-budget status). -/
theorem C8_counterexample :
    (optimize_generator envC8X 0 0 10).map (fun r => r.status) =
      [JaxPlannerStatus.NO_PROGRESS] ∧
    JaxPlannerStatus.NO_PROGRESS ≠ JaxPlannerStatus.ITER_BUDGET_REACHED ∧
    envC8X.epochs = 1 := by
  refine ⟨?_, by decide, rfl⟩
  norm_num [optimize_generator, runFrom, runFromAux, iterStep, plan_update,
    initDriverState, RollingMean.update, RollingMean.mk0, statusOf,
    FVal.add, FVal.divNat, FVal.lt, FVal.isFinite,
    JaxPlannerStatus.isFailure, JaxPlannerStatus.value, envC8X]

/-!
### C9: the get_action input contract
-/

/-- An entry of the state dictionary that makes `get_action` raise: a
grounded key, or a non-numeric value outside the permitted
step-0-observation case. -/
def badEntry {V A : Type} (env : GetActionEnv V A) (step : ℕ)
    (e : List Char × V) : Bool :=
  groundedKey env e.1 ||
    (!env.isNumeric e.2 && !(decide (step = 0) && env.observ e.1))

/-- The repair `get_action` performs on accepted dictionaries: replace a
(permitted) non-numeric value by the compiled initial value of its
variable. -/
def repairEntry {V A : Type} (env : GetActionEnv V A) (e : List Char × V) :
    List Char × V :=
  if env.isNumeric e.2 then e else (e.1, env.initValues e.1)

/-- C9: `get_action` raises if and only if the state dictionary contains
a grounded key or a non-numeric value for a variable that is not an
observation fluent queried at step 0; otherwise each permitted missing
observation is replaced by its initial value and the test policy is
queried on the repaired dictionary, returning its action mapping. -/
theorem C9_get_action_contract {V A : Type} (env : GetActionEnv V A)
    (step : ℕ) (subs : List (List Char × V)) :
    checkSubs env step subs =
      (if subs.any (badEntry env step) then Except.error ()
       else Except.ok (subs.map (repairEntry env))) ∧
    get_action env step subs = (checkSubs env step subs).map env.testPolicy := by
  refine ⟨?_, rfl⟩
  induction subs with
  | nil => simp [checkSubs]
  | cons e rest ih =>
    obtain ⟨var, val⟩ := e
    by_cases hg : groundedKey env var = true
    · simp [checkSubs, hg, badEntry]
    · by_cases hn : env.isNumeric val = true
      · have hbad : badEntry env step (var, val) = false := by
          simp [badEntry, hg, hn]
        rw [show checkSubs env step ((var, val) :: rest) =
          (checkSubs env step rest).map (fun r => (var, val) :: r) by
            simp [checkSubs, hg, hn]]
        rw [ih]
        cases hx : rest.any (badEntry env step) with
        | true => simp [hx, hbad, Except.map]
        | false => simp [hx, hbad, repairEntry, hn, Except.map]
      · by_cases hp : step = 0 ∧ env.observ var = true
        · have hbad : badEntry env step (var, val) = false := by
            simp [badEntry, hg, hn, hp.1, hp.2]
          rw [show checkSubs env step ((var, val) :: rest) =
            (checkSubs env step rest).map
              (fun r => (var, env.initValues var) :: r) by
              simp [checkSubs, hg, hn, hp]]
          rw [ih]
          cases hx : rest.any (badEntry env step) with
          | true => simp [hx, hbad, Except.map]
          | false => simp [hx, hbad, repairEntry, hn, Except.map]
        · have hbad : badEntry env step (var, val) = true := by
            rcases Decidable.not_and_iff_or_not.mp hp with h0 | h0 <;>
              simp [badEntry, hg, hn, h0]
          rw [show checkSubs env step ((var, val) :: rest) = Except.error () by
            simp [checkSubs, hg, hn, hp]]
          simp [hbad]

/-!
### C10: the sorting projection is only installed with `K` in range
-/

/-- The concatenated score vector has exactly one entry per boolean
action entry. -/
theorem length_sortingScores (cfg : PlanConfig) (vars : List ActionVar) :
    (sortingScores cfg vars).length = count_bool_actions vars := by
  unfold sortingScores count_bool_actions
  rw [List.length_flatMap]
  have h : (List.length ∘ fun v : ActionVar => v.param.map (reflectScore cfg v.noop))
      = fun v : ActionVar => v.param.length := by
    funext v; simp
  rw [h]

/-- Sorting does not change the number of scores. -/
theorem length_sortDescending (l : List ℚ) :
    (sortDescending l).length = l.length := by
  simp [sortDescending, List.length_mergeSort]

/-- C10: whenever `JaxStraightLinePlan.compile` installs the sort-based
projection, the concurrency bound `K` is strictly below the number of
boolean action entries, so the index `K` into the descending score vector
(of the same length) is always in bounds: the projection never reads out
of range. -/
theorem C10_sorting_index_in_bounds (cfg : PlanConfig) (vars : List ActionVar)
    (h : projectionChoice cfg (count_bool_actions vars) =
      Except.ok ProjKind.sortingMax) :
    cfg.allowedActions < (sortingScores cfg vars).length ∧
    cfg.allowedActions < (sortDescending (sortingScores cfg vars)).length := by
  have hlt : cfg.allowedActions < count_bool_actions vars := by
    by_cases hcs : cfg.allowedActions < count_bool_actions vars
    · exact hcs
    · exfalso
      simp only [projectionChoice] at h
      rw [if_neg (fun hc => hcs hc.1), if_neg (fun hc => hcs hc.1),
        if_neg (fun hc => hcs hc.1)] at h
      exact absurd h (by simp)
  constructor
  · rw [length_sortingScores]; exact hlt
  · rw [length_sortDescending, length_sortingScores]; exact hlt

/-- The action-variable list used by the C10 witness: one boolean action
fluent with two entries. -/
def varsC10 : List ActionVar := [⟨"a", RangeTag.bool, false, 0, 0, [0, 0]⟩]

/-- Witness for C10: a configuration with `K = 1` and two boolean action
entries installs the sorting projection, and the index `1` is in bounds
of the two concatenated scores. -/
theorem C10_sorting_index_in_bounds_witness :
    projectionChoice cfgC6 (count_bool_actions varsC10) =
      Except.ok ProjKind.sortingMax ∧
    cfgC6.allowedActions < (sortingScores cfgC6 varsC10).length ∧
    cfgC6.allowedActions < (sortDescending (sortingScores cfgC6 varsC10)).length :=
  ⟨rfl,
   (C10_sorting_index_in_bounds cfgC6 varsC10 rfl).1,
   (C10_sorting_index_in_bounds cfgC6 varsC10 rfl).2⟩

/-!
### C1: the sort-based projection
-/

/-- The shift of the sorting projection does not change variable
metadata. -/
theorem shift_var_meta (cfg : PlanConfig) (flog : ℚ → ℚ) (hyper : String → ℚ)
    (surplus : ℚ) (v : ActionVar) :
    (shift_var cfg flog hyper surplus v).range = v.range ∧
    (shift_var cfg flog hyper surplus v).noop = v.noop ∧
    (shift_var cfg flog hyper surplus v).name = v.name := by
  unfold shift_var; split <;> exact ⟨rfl, rfl, rfl⟩

/-- The box projection does not change variable metadata or entry
counts. -/
theorem box_var_meta (cfg : PlanConfig) (flog : ℚ → ℚ) (hyper : String → ℚ)
    (v : ActionVar) :
    (box_var cfg flog hyper v).range = v.range ∧
    (box_var cfg flog hyper v).noop = v.noop ∧
    (box_var cfg flog hyper v).name = v.name ∧
    (box_var cfg flog hyper v).param.length = v.param.length := by
  unfold box_var; split_ifs <;> simp

/-- At most `K` entries of a list strictly exceed the `(K+1)`-th largest
entry of its descending sort. -/
theorem countP_gt_kth_le (l : List ℚ) (K : ℕ) (hK : K < l.length) :
    l.countP (fun s => decide ((sortDescending l).getD K 0 < s)) ≤ K := by
  set d := sortDescending l with hd
  have hperm : d.Perm l := by
    rw [hd]; unfold sortDescending
    exact (List.reverse_perm _).trans (List.mergeSort_perm l _)
  have hlen : d.length = l.length := hperm.length_eq
  have hKd : K < d.length := by omega
  have hsorted : List.Pairwise (fun a b : ℚ => b ≤ a) d := by
    rw [hd]; unfold sortDescending
    rw [List.pairwise_reverse]
    have hs := @List.sorted_mergeSort ℚ (fun a b : ℚ => decide (a ≤ b))
      (fun a b c hab hbc => by
        simp only [decide_eq_true_eq] at hab hbc ⊢; exact le_trans hab hbc)
      (fun a b => by simpa using le_total a b) l
    exact hs.imp (fun h => by simpa using h)
  rw [← hperm.countP_eq]
  set p : ℚ → Bool := fun s => decide (d.getD K 0 < s) with hp
  have hdk : d.getD K 0 = d[K] := List.getD_eq_getElem d 0 hKd
  have hsplit : d.countP p = (d.take K).countP p + (d.drop K).countP p := by
    conv_lhs => rw [← List.take_append_drop K d]
    rw [List.countP_append]
  have h1 : (d.take K).countP p ≤ K := by
    refine le_trans (List.countP_le_length _) ?_
    rw [List.length_take]
    exact min_le_left _ _
  have h2 : (d.drop K).countP p = 0 := by
    apply List.countP_eq_zero.mpr
    intro a ha
    have hdrop : d.drop K = d[K] :: d.drop (K + 1) :=
      List.drop_eq_getElem_cons hKd
    have hPd : List.Pairwise (fun a b : ℚ => b ≤ a) (d.drop K) :=
      List.Pairwise.sublist (List.drop_sublist K d) hsorted
    rw [hdrop] at ha hPd
    have hle : a ≤ d[K] := by
      rcases List.mem_cons.mp ha with rfl | hmem
      · exact le_refl _
      · exact List.rel_of_sorted_cons hPd a hmem
    rw [hp]
    simp only [hdk, decide_eq_true_eq]
    exact not_lt.mpr hle
  rw [hsplit, h2]
  omega

/-- Per-step bound for the sorting projection: in sigmoid mode, with
every boolean no-op value `False`, positive weights and a lower parameter
bound that is not positive, the projected step has at most `K` active
entries. -/
theorem sorting_project_active_le (cfg : PlanConfig) (flog : ℚ → ℚ)
    (hyper : String → ℚ) (vars : List ActionVar)
    (hws : cfg.wrapSigmoid = true)
    (hnoop : ∀ v ∈ vars, v.range = RangeTag.bool → v.noop = false)
    (hwt : ∀ v ∈ vars, v.range = RangeTag.bool → 0 < hyper v.name)
    (hlog : 0 ≤ flog (1 / cfg.minActionProb - 1))
    (hK : cfg.allowedActions < (sortingScores cfg vars).length) :
    activeCount cfg (sorting_project cfg flog hyper vars).1 ≤ cfg.allowedActions := by
  set S := sortingSurplus cfg vars with hS
  have hthr : boolThreshold cfg = 0 := by simp [boolThreshold, hws]
  set dK := (sortDescending (sortingScores cfg vars)).getD cfg.allowedActions 0
    with hdK
  have hSdK : dK ≤ S := by
    rw [hS]; unfold sortingSurplus
    rw [hthr, ← hdK, sub_zero]
    exact le_max_left _ _
  -- step 1: the active count of the shifted step, as a sum over the
  -- boolean variables of the original step
  have h1 : activeCount cfg (sorting_project cfg flog hyper vars).1 =
      ((vars.filter (fun v => v.range = RangeTag.bool)).map
        (fun v => (shift_var cfg flog hyper S v).param.countP
          (fun p => testBoolAction cfg p != (shift_var cfg flog hyper S v).noop))).sum := by
    show activeCount cfg (vars.map (shift_var cfg flog hyper S)) = _
    unfold activeCount
    rw [List.filter_map, List.map_map]
    have hpred : ((fun v : ActionVar => decide (v.range = RangeTag.bool)) ∘
        shift_var cfg flog hyper S) =
        fun v : ActionVar => decide (v.range = RangeTag.bool) := by
      funext v
      simp [Function.comp, (shift_var_meta cfg flog hyper S v).1]
    rw [hpred]
    rfl
  -- step 2: each summand is bounded by the count of entries whose raw
  -- parameter strictly exceeds the surplus
  have h2 : ∀ v ∈ vars.filter (fun v => v.range = RangeTag.bool),
      (shift_var cfg flog hyper S v).param.countP
        (fun p => testBoolAction cfg p != (shift_var cfg flog hyper S v).noop) ≤
      v.param.countP (fun p => decide (S < p)) := by
    intro v hv
    obtain ⟨hvmem, hvbool⟩ := List.mem_filter.mp hv
    have hvbool' : v.range = RangeTag.bool := by simpa using hvbool
    have hn : v.noop = false := hnoop v hvmem hvbool'
    have hw : 0 < hyper v.name := hwt v hvmem hvbool'
    have hshift : shift_var cfg flog hyper S v =
        { v with param := v.param.map (fun p =>
            project_bool_to_box cfg flog (hyper v.name) (p + -S)) } := by
      unfold shift_var
      rw [if_pos hvbool', hn]
      simp
    rw [hshift]
    simp only [List.countP_map, hn]
    refine List.countP_mono_left ?_
    intro p _ hact
    simp only [Function.comp, bne_iff_ne, ne_eq, Bool.not_eq_false,
      testBoolAction, hthr, decide_eq_true_eq] at hact
    -- the lower clip bound is not positive
    have hlo : bool_action_to_param cfg flog (hyper v.name) cfg.minActionProb ≤ 0 := by
      unfold bool_action_to_param
      rw [if_pos (by rw [hws])]
      have hnn : 0 ≤ (1 / hyper v.name) * flog (1 / cfg.minActionProb - 1) :=
        mul_nonneg (by positivity) hlog
      have heq : (-1 / hyper v.name) * flog (1 / cfg.minActionProb - 1) =
          -((1 / hyper v.name) * flog (1 / cfg.minActionProb - 1)) := by ring
      rw [heq]
      exact neg_nonpos.mpr hnn
    -- an entry active after clipping was above the surplus before
    have hact' : 0 < p + -S := by
      unfold project_bool_to_box clip at hact
      have h0 : 0 < max (p + -S)
          (bool_action_to_param cfg flog (hyper v.name) cfg.minActionProb) :=
        lt_of_lt_of_le hact (min_le_left _ _)
      rcases lt_max_iff.mp h0 with h | h
      · exact h
      · linarith
    simp only [decide_eq_true_eq]
    linarith
  -- step 3: the per-variable counts over raw parameters sum to the count
  -- over the concatenated score vector (no-op `False` means no
  -- reflection)
  have h3 : ((vars.filter (fun v => v.range = RangeTag.bool)).map
      (fun v => v.param.countP (fun p => decide (S < p)))).sum =
      (sortingScores cfg vars).countP (fun p => decide (S < p)) := by
    unfold sortingScores
    rw [List.countP_flatMap]
    refine congrArg List.sum ?_
    refine (List.map_congr_left ?_).symm
    intro v hv
    obtain ⟨hvmem, hvbool⟩ := List.mem_filter.mp hv
    have hvbool' : v.range = RangeTag.bool := by simpa using hvbool
    have hn : v.noop = false := hnoop v hvmem hvbool'
    simp only [Function.comp]
    rw [hn, List.countP_map,
      show ((fun p => decide (S < p)) ∘ reflectScore cfg false) =
        fun p : ℚ => decide (S < p) from funext (fun p => by simp [reflectScore])]
  -- step 4: entries above the surplus are above the (K+1)-th largest
  -- score, and there are at most K of those
  have h4 : (sortingScores cfg vars).countP (fun p => decide (S < p)) ≤
      (sortingScores cfg vars).countP (fun p => decide (dK < p)) := by
    refine List.countP_mono_left ?_
    intro p _ h
    simp only [decide_eq_true_eq] at h ⊢
    linarith
  have h5 := countP_gt_kth_le (sortingScores cfg vars) cfg.allowedActions hK
  rw [← hdK] at h5
  calc activeCount cfg (sorting_project cfg flog hyper vars).1
      = _ := h1
    _ ≤ ((vars.filter (fun v => v.range = RangeTag.bool)).map
        (fun v => v.param.countP (fun p => decide (S < p)))).sum :=
        List.sum_le_sum h2
    _ = (sortingScores cfg vars).countP (fun p => decide (S < p)) := h3
    _ ≤ (sortingScores cfg vars).countP (fun p => decide (dK < p)) := h4
    _ ≤ cfg.allowedActions := h5

/-- The box projection does not change the number of boolean action
entries. -/
theorem count_bool_actions_box (cfg : PlanConfig) (flog : ℚ → ℚ)
    (hyper : String → ℚ) (vars : List ActionVar) :
    count_bool_actions (vars.map (box_var cfg flog hyper)) =
      count_bool_actions vars := by
  unfold count_bool_actions
  rw [List.filter_map,
    show ((fun v : ActionVar => decide (v.range = RangeTag.bool)) ∘
        box_var cfg flog hyper) =
      fun v : ActionVar => decide (v.range = RangeTag.bool) from
      funext (fun v => by simp [Function.comp, (box_var_meta cfg flog hyper v).1]),
    List.map_map,
    show ((fun v : ActionVar => v.param.length) ∘ box_var cfg flog hyper) =
      fun v : ActionVar => v.param.length from
      funext (fun v => (box_var_meta cfg flog hyper v).2.2.2)]

/-- C1 (amended): for the straight-line plan's sort-based projection in
sigmoid mode with positive per-variable weights,
`min_action_prob` giving a non-positive lower parameter bound, a
concurrency bound `K` below the number of boolean action entries, and —
the amendment — every boolean action fluent having no-op value `False`,
the projected parameters have at most `K` active entries at every time
step; the projection reports success unconditionally.  (With a no-op
`True` fluent the bound can fail when scores tie exactly at the
`(K+1)`-th threshold, see the counterexample.) -/
theorem C1_sorting_projection_amended (cfg : PlanConfig) (flog : ℚ → ℚ)
    (hyper : String → ℚ) (steps : List (List ActionVar))
    (hws : cfg.wrapSigmoid = true)
    (hnoop : ∀ s ∈ steps, ∀ v ∈ s, v.range = RangeTag.bool → v.noop = false)
    (hwt : ∀ s ∈ steps, ∀ v ∈ s, v.range = RangeTag.bool → 0 < hyper v.name)
    (hlog : 0 ≤ flog (1 / cfg.minActionProb - 1))
    (hK : ∀ s ∈ steps, cfg.allowedActions < count_bool_actions s) :
    (∀ s' ∈ (slp_project_to_max_constraint_sorting cfg flog hyper steps).1,
      activeCount cfg s' ≤ cfg.allowedActions) ∧
    (slp_project_to_max_constraint_sorting cfg flog hyper steps).2.all
      (fun b => b) = true := by
  constructor
  · intro s' hs'
    unfold slp_project_to_max_constraint_sorting slp_project_to_box at hs'
    simp only [List.map_map, List.mem_map, Function.comp] at hs'
    obtain ⟨s, hsmem, rfl⟩ := hs'
    refine sorting_project_active_le cfg flog hyper
      (s.map (box_var cfg flog hyper)) hws ?_ ?_ hlog ?_
    · intro v hv hb
      obtain ⟨v0, hv0, rfl⟩ := List.mem_map.mp hv
      rw [(box_var_meta cfg flog hyper v0).2.1]
      exact hnoop s hsmem v0 hv0
        (by rw [← (box_var_meta cfg flog hyper v0).1]; exact hb)
    · intro v hv hb
      obtain ⟨v0, hv0, rfl⟩ := List.mem_map.mp hv
      rw [(box_var_meta cfg flog hyper v0).2.2.1]
      exact hwt s hsmem v0 hv0
        (by rw [← (box_var_meta cfg flog hyper v0).1]; exact hb)
    · rw [length_sortingScores, count_bool_actions_box]
      exact hK s hsmem
  · unfold slp_project_to_max_constraint_sorting
    simp [sorting_project, List.all_eq_true]

/-- The action-variable step used by the C1 witness: one boolean action
fluent with no-op `False` and two entries. -/
def varsC1W : List ActionVar := [⟨"a", RangeTag.bool, false, 0, 0, [1, 2]⟩]

/-- All boolean fluents of the witness step have no-op `False`. -/
theorem varsC1W_noop :
    ∀ s ∈ [varsC1W], ∀ v ∈ s, v.range = RangeTag.bool → v.noop = false := by
  intro s hs v hv _
  simp only [List.mem_singleton] at hs
  subst hs
  simp only [varsC1W, List.mem_singleton] at hv
  subst hv
  rfl

/-- All sigmoid weights of the witness are positive. -/
theorem varsC1W_weight :
    ∀ s ∈ [varsC1W], ∀ v ∈ s, v.range = RangeTag.bool →
      (0 : ℚ) < (fun _ : String => (1 : ℚ)) v.name := by
  intro s _ v _ _
  norm_num

/-- The witness step has more boolean entries than the bound `K = 1`. -/
theorem varsC1W_count :
    ∀ s ∈ [varsC1W], cfgC6.allowedActions < count_bool_actions s := by
  intro s hs
  simp only [List.mem_singleton] at hs
  subst hs
  decide

/-- Witness for C1: a concrete step with two entries, `K = 1`, positive
weight and no-op `False`, on which the projected active count is within
the bound and the projection reports success. -/
theorem C1_sorting_projection_amended_witness :
    cfgC6.wrapSigmoid = true ∧
    (∀ s ∈ [varsC1W], ∀ v ∈ s, v.range = RangeTag.bool → v.noop = false) ∧
    (∀ s ∈ [varsC1W], ∀ v ∈ s, v.range = RangeTag.bool →
      (0 : ℚ) < (fun _ : String => (1 : ℚ)) v.name) ∧
    (0 : ℚ) ≤ id (1 / cfgC6.minActionProb - 1) ∧
    (∀ s ∈ [varsC1W], cfgC6.allowedActions < count_bool_actions s) ∧
    (∀ s' ∈ (slp_project_to_max_constraint_sorting cfgC6 id
        (fun _ => 1) [varsC1W]).1,
      activeCount cfgC6 s' ≤ cfgC6.allowedActions) ∧
    (slp_project_to_max_constraint_sorting cfgC6 id
      (fun _ => 1) [varsC1W]).2.all (fun b => b) = true :=
  ⟨rfl, varsC1W_noop, varsC1W_weight,
   by norm_num [cfgC6],
   varsC1W_count,
   (C1_sorting_projection_amended cfgC6 id (fun _ => 1) [varsC1W] rfl
     varsC1W_noop varsC1W_weight (by norm_num [cfgC6]) varsC1W_count).1,
   (C1_sorting_projection_amended cfgC6 id (fun _ => 1) [varsC1W] rfl
     varsC1W_noop varsC1W_weight (by norm_num [cfgC6]) varsC1W_count).2⟩

/-- A computable stand-in for `log` that has the sign behaviour of the
real logarithm (`log x < 0` for `x < 1`, `log 1 = 0`, `log x > 0` for
`x > 1`) at every point the counterexample evaluates it. -/
def flogSign (x : ℚ) : ℚ := if x < 1 then -1 else if x = 1 then 0 else 1

/-- The action-variable step of the C1 counterexample: one boolean
action fluent with no-op `True` and two entries tied at parameter
`-1`. -/
def varsC1X : List ActionVar := [⟨"a", RangeTag.bool, true, 0, 0, [-1, -1]⟩]

/-- C1 counterexample: with `K = 1`, sigmoid weight `1` and a no-op
`True` boolean fluent whose two entries are tied at `-1` (reflected
score `1` each), the computed surplus is `1`, the shift lands both
parameters exactly on the decision boundary `0`, where the thresholded
test action `0 > 0 = False` differs from the no-op `True`: both entries
remain active, so the post-projection active count is `2 > K = 1`
— while the projection still reports success.  The claimed bound
`active ≤ K` is therefore false as stated. -/
theorem C1_counterexample :
    ((slp_project_to_max_constraint_sorting cfgC6 flogSign
        (fun _ => 1) [varsC1X]).1.map (activeCount cfgC6)) = [2] ∧
    cfgC6.allowedActions = 1 ∧ ¬ (2 ≤ 1) ∧
    (slp_project_to_max_constraint_sorting cfgC6 flogSign
      (fun _ => 1) [varsC1X]).2 = [true] ∧
    count_bool_actions varsC1X = 2 ∧
    (0 : ℚ) < (fun _ : String => (1 : ℚ)) "a" ∧
    cfgC6.wrapSigmoid = true := by
  refine ⟨?_, rfl, by omega, ?_, rfl, by norm_num, rfl⟩ <;>
    norm_num [slp_project_to_max_constraint_sorting, slp_project_to_box,
      box_var, sorting_project, shift_var, sortingSurplus, sortingScores,
      sortDescending, reflectScore, project_bool_to_box,
      bool_action_to_param, clip, boolThreshold, activeCount,
      testBoolAction, count_bool_actions, varsC1X, cfgC6, flogSign,
      List.mergeSort]

end Planner



